import Mathlib

/-!
Shallow embedding of the clip-extraction subsystem of `eafutil`
(`src/text.rs`, `src/clips.rs`, `src/eaf.rs`), together with theorems
settling the frozen claims about it.

Strings are modelled as Lean `String` (a list of Unicode scalar values,
matching Rust `char` iteration). Machine integers (`usize`) are `Nat`
with explicit wrapping modulo 2^64 where the source can underflow;
millisecond timestamps (`i64`) are `Int`.
-/

namespace Eafutil

/-- Unicode `White_Space` code points, as matched by Rust `char::is_whitespace`
(UAX #44 White_Space property). -/
def rustIsWhitespace (c : Char) : Bool :=
  [0x9, 0xA, 0xB, 0xC, 0xD, 0x20, 0x85, 0xA0, 0x1680,
   0x2000, 0x2001, 0x2002, 0x2003, 0x2004, 0x2005, 0x2006, 0x2007,
   0x2008, 0x2009, 0x200A, 0x2028, 0x2029, 0x202F, 0x205F, 0x3000].contains c.toNat

/-- Rust `char::is_ascii`: code point at most 0x7F. -/
def rustIsAscii (c : Char) : Bool :=
  c.toNat ≤ 0x7F

/-- Rust `str::trim`: remove leading and trailing Unicode whitespace. -/
def rustTrim (s : String) : String :=
  ⟨((s.toList.dropWhile rustIsWhitespace).reverse.dropWhile rustIsWhitespace).reverse⟩

/-- Rust `str::trim_end`: remove trailing Unicode whitespace. -/
def rustTrimEnd (s : String) : String :=
  ⟨(s.toList.reverse.dropWhile rustIsWhitespace).reverse⟩

/-- Rust `str::replace(|c| p c, r)` where the replacement is a single
character: substitute every matching scalar value. -/
def replaceIf (p : Char → Bool) (r : Char) (s : String) : String :=
  ⟨s.toList.map (fun c => if p c then r else c)⟩

/-- Embedding of `text.rs::process_string`. The `regex` argument of the
source is modelled as an opaque removal function `String → String`
(`rx.replace_all(&string, "")` for the concrete regex instances used by
the callers). The truncation `chars().enumerate().filter(|(i, _)| &l > i)`
keeps exactly the first `l` scalar values, i.e. `List.take l`. -/
def processString (value : String) (ascii : Option Char) (whitespace : Option Char)
    (remover : Option (String → String)) (len : Option Nat) : String :=
  let s1 : String :=
    match len with
    | some l => ⟨value.toList.take l⟩
    | none => value
  let s2 : String :=
    match remover with
    | some rx => rx s1
    | none => s1
  match ascii, whitespace with
  | some a, some w =>
      replaceIf (fun c => !rustIsAscii c) a (replaceIf rustIsWhitespace w (rustTrim s2))
  | some a, none =>
      replaceIf (fun c => !rustIsAscii c) a (rustTrim s2)
  | none, some w =>
      replaceIf rustIsWhitespace w (rustTrim s2)
  | none, none => s2

/-- Step 1 of the sanitizer pipeline as the spec words it: truncate to the
first `len` scalar values. -/
def truncStep (len : Option Nat) (s : String) : String :=
  match len with
  | some l => ⟨s.toList.take l⟩
  | none => s

/-- Step 2 of the sanitizer pipeline as the spec words it: remove pattern
matches. -/
def removeStep (remover : Option (String → String)) (s : String) : String :=
  match remover with
  | some rx => rx s
  | none => s

/-- Step 4 of the sanitizer pipeline as the spec words it: substitute
whitespace and then non-ASCII scalar values, for whichever substitutes are
supplied. -/
def substStep (ascii : Option Char) (whitespace : Option Char) (s : String) : String :=
  match ascii, whitespace with
  | some a, some w => replaceIf (fun c => !rustIsAscii c) a (replaceIf rustIsWhitespace w s)
  | some a, none => replaceIf (fun c => !rustIsAscii c) a s
  | none, some w => replaceIf rustIsWhitespace w s
  | none, none => s

/-- Character class of the `re2remove` regex compiled in `clips.rs::run`
(`["\'#*<>{}()\[\].,:;!/?=\\-]`): the fixed set of filesystem-unsafe
characters stripped from annotation values. -/
def stripSet : List Char :=
  ['"', Char.ofNat 39, '#', '*', '<', '>', Char.ofNat 123, Char.ofNat 125,
   '(', ')', '[', ']', '.', ',', ':', ';', '!', '/', '?', '=', Char.ofNat 92, '-']

/-- Action of `re2remove.replace_all(s, "")`: remove every character of the
class from the string. -/
def re2removeFn (s : String) : String :=
  ⟨s.toList.filter (fun c => !stripSet.contains c)⟩

/-- Rust `format!("\x7b:04\x7d", n)`: decimal rendering zero-padded on the
left to at least four digits. -/
def pad4 (n : Nat) : String :=
  let s := toString n
  ⟨List.replicate (4 - s.length) '0'⟩ ++ s

/-- Embedding of the `annotstem` accumulator built in `clips.rs::run` for the
boundary at 0-based position `idx`: the literal `annotation_NNNN` sequence
number, then optionally tier id, annotation id, sanitized value, and the
millisecond time range, in that order. The value is sanitized by
`process_string` with the underscore character as whitespace substitute
(always supplied by the source), the underscore character as ASCII
substitute only when `ascii_path` is set, the `re2remove` pattern, and
`max_len`. -/
def annotStem (idx : Nat) (tierId aId val : String)
    (useTid useAid useVal useTime asciiPath : Bool) (maxLen : Nat)
    (startMs endMs : Int) : String :=
  let s0 := "annotation_" ++ pad4 (idx + 1)
  let s1 := if useTid then s0 ++ "_" ++ tierId else s0
  let s2 := if useAid then s1 ++ "_" ++ aId else s1
  let s3 :=
    if useVal then
      s2 ++ "_" ++ processString val (if asciiPath then some '_' else none)
        (some '_') (some re2removeFn) (some maxLen)
    else s2
  if useTime then s3 ++ "_" ++ toString startMs ++ "-" ++ toString endMs else s3

/-- Modulus of the 64-bit `usize` arithmetic of the source
(2 to the power 64). -/
def usizeMod : Nat := 18446744073709551616

/-- Rust `str::parse::<usize>()`: an optional leading plus sign followed by
at least one ASCII digit, rejecting any other character and values outside
the `usize` range. -/
def parseUsize (s : String) : Option Nat :=
  let l :=
    match s.toList with
    | '+' :: rest => rest
    | l => l
  if l.isEmpty then none
  else if l.all Char.isDigit then
    let n := l.foldl (fun acc c => acc * 10 + (c.toNat - 48)) 0
    if n < usizeMod then some n else none
  else none

/-- Wrapping `i - 1` on `usize` (release-profile two's-complement
semantics): for `i = 0` this wraps to `2^64 - 1`. -/
def usizeSub1 (i : Nat) : Nat :=
  (i + (usizeMod - 1)) % usizeMod

/-- Annotation abstraction of the external `eaf-rs` document model
(spec section 6): a stable internal id, a display value, and optional
resolved start/end millisecond time-slot values as returned by
`Annotation::ts_val`. -/
structure Annot where
  id : String
  value : String
  tsStart : Option Int
  tsEnd : Option Int
deriving DecidableEq

/-- Tier abstraction of the external `eaf-rs` document model: an id and an
ordered annotation list. -/
structure Tier where
  tierId : String
  annotations : List Annot
deriving DecidableEq

/-- Document abstraction of the external `eaf-rs` model: the ordered tier
list and the transitive tokenization test
`Eaf::is_tokenized(tier_id, true)`. -/
structure Eaf where
  tiers : List Tier
  tokenizedTransitive : String → Bool

/-- One event read from standard input by a selector loop iteration: a line
(as later trimmed and parsed), or an I/O error raised by the read or the
prompt flush. -/
inductive InEvent where
  | line (s : String)
  | ioErr
deriving DecidableEq

/-- Result of running a selector on a finite input sequence: a returned
selection, a propagated I/O error, or divergence. Once the input sequence
is exhausted, every further `read_line` in the source returns `Ok(0)` with
an empty buffer (end of file is not an error in Rust), the empty line
fails to parse, and the loop re-prompts forever; that residual infinite
loop is the `diverges` outcome. -/
inductive SelOutcome (α : Type) where
  | selected (a : α)
  | ioError
  | diverges
deriving DecidableEq

/-- One iteration of the `eaf.rs::select_tier` loop on one input line:
trim the trailing newline and whitespace, parse as `usize`, index the tier
list at the wrapped 1-based index, and reject (returning `none`, which
re-prompts) unparseable input, out-of-range indices, and tokenized tiers
when `no_tokenized` is set. -/
def selectTierStep (eaf : Eaf) (noTokenized : Bool) (line : String) : Option Tier :=
  match parseUsize (rustTrimEnd line) with
  | some i =>
    match eaf.tiers[usizeSub1 i]? with
    | some t =>
      if eaf.tokenizedTransitive t.tierId && noTokenized then none else some t
    | none => none
  | none => none

/-- Embedding of `eaf.rs::select_tier` over a finite input sequence. -/
def selectTier (eaf : Eaf) (noTokenized : Bool) : List InEvent → SelOutcome Tier
  | [] => .diverges
  | .ioErr :: _ => .ioError
  | .line s :: rest =>
    match selectTierStep eaf noTokenized s with
    | some t => .selected t
    | none => selectTier eaf noTokenized rest

/-- The `no_ts` list built by `eaf.rs::select_annotation before its loop:
the 0-based positions of the annotations whose `ts_val` is not a fully
resolved pair. -/
def noTsList (tier : Tier) : List Nat :=
  tier.annotations.enum.filterMap fun ia =>
    match ia.2.tsStart, ia.2.tsEnd with
    | some _, some _ => none
    | _, _ => some ia.1

/-- One iteration of the `eaf.rs::select_annotation loop on one input
line: parse the line as `usize`, reject the parsed value when the `no_ts`
list contains it, otherwise index the annotation list at the wrapped
1-based index. Note that the source compares the parsed 1-based input
against the 0-based positions stored in `no_ts`. -/
def selectAnnotStep (tier : Tier) (line : String) : Option Annot :=
  match parseUsize (rustTrimEnd line) with
  | some i =>
    if (noTsList tier).contains i then none
    else
      match tier.annotations[usizeSub1 i]? with
      | some a => some a
      | none => none
  | none => none

/-- Embedding of `eaf.rs::select_annotation over a finite input
sequence. -/
def selectAnnot (tier : Tier) : List InEvent → SelOutcome Annot
  | [] => .diverges
  | .ioErr :: _ => .ioError
  | .line s :: rest =>
    match selectAnnotStep tier s with
    | some a => .selected a
    | none => selectAnnot tier rest

/-- Test for a character other than the path separator. -/
def notSlash (c : Char) : Bool := c != '/'

/-- Test for a character other than the dot. -/
def notDot (c : Char) : Bool := c != '.'

/-- Rust `Path::file_name` for the paths this subsystem handles: the
component after the last path separator, `none` when it is empty. -/
def fileNameOf (p : List Char) : Option (List Char) :=
  let n := (p.reverse.takeWhile notSlash).reverse
  if n.isEmpty then none else some n

/-- A file name that begins with a dot and contains no further dot: Rust
treats such a name as all stem and no extension. -/
def isDotfileNoExt (n : List Char) : Bool :=
  match n with
  | '.' :: rest => !rest.contains '.'
  | _ => false

/-- Split a file name at its last dot, returning the part before and the
part after; `none` when the name has no dot. -/
def splitLastDot (l : List Char) : Option (List Char × List Char) :=
  let r := l.reverse
  if r.contains '.' then
    some (((r.dropWhile notDot).tail).reverse, (r.takeWhile notDot).reverse)
  else none

/-- Rust file-name stem and extension (`Path::file_stem` / `Path::extension`
applied to a plain file name): the whole name when there is no embedded dot
or the name is a leading-dot name, otherwise split at the last dot. -/
def stemExtName (n : List Char) : List Char × Option (List Char) :=
  if isDotfileNoExt n then (n, none)
  else
    match splitLastDot n with
    | some p => (p.1, some p.2)
    | none => (n, none)

/-- Rust `Path::file_stem` on a path. -/
def pathFileStem (p : List Char) : Option (List Char) :=
  (fileNameOf p).map fun n => (stemExtName n).1

/-- Rust `Path::extension` on a path. -/
def pathExtension (p : List Char) : Option (List Char) :=
  (fileNameOf p).bind fun n => (stemExtName n).2

/-- The extension-stripping loop of `clips.rs::Clips::get_timestamps`:
while the current stem still has an extension, replace it by its own file
stem; the question-mark propagation of a failed `file_stem` is the `none`
result. -/
def stripAll (stem : List Char) : Option (List Char) :=
  match hext : pathExtension stem with
  | none => some stem
  | some _ =>
    match hstem : pathFileStem stem with
    | none => none
    | some s => stripAll s
termination_by stem.length
decreasing_by
  simp only [pathFileStem, Option.map_eq_some'] at hstem
  simp only [pathExtension, Option.bind_eq_some] at hext
  obtain ⟨n, hn, hs⟩ := hstem
  obtain ⟨n2, hn2, he⟩ := hext
  rw [hn] at hn2
  obtain rfl : n = n2 := Option.some.inj hn2
  have hnlen : n.length ≤ stem.length := by
    simp only [fileNameOf] at hn
    split at hn
    · exact absurd hn (by simp)
    · injection hn with h
      subst h
      have hsub : List.Sublist (stem.reverse.takeWhile notSlash) stem.reverse :=
        List.takeWhile_sublist notSlash
      simpa using hsub.length_le
  have hlt : (stemExtName n).1.length < n.length := by
    by_cases hdf : isDotfileNoExt n
    · simp [stemExtName, hdf] at he
    · cases hsp : splitLastDot n with
      | none => simp [stemExtName, hdf, hsp] at he
      | some p =>
        have h1 : (stemExtName n).1 = p.1 := by simp [stemExtName, hdf, hsp]
        rw [h1]
        simp only [splitLastDot] at hsp
        by_cases hc : n.reverse.contains '.'
        · rw [if_pos hc] at hsp
          injection hsp with hpair
          have hne : n.reverse.dropWhile notDot ≠ [] := by
            intro hnil
            have hall := List.dropWhile_eq_nil_iff.mp hnil
            have hmem : '.' ∈ n.reverse := by simpa using hc
            have := hall '.' hmem
            simp [notDot] at this
          have hsub : List.Sublist (n.reverse.dropWhile notDot) n.reverse :=
            List.dropWhile_sublist notDot
          have h1l : (n.reverse.dropWhile notDot).length ≤ n.length := by
            simpa using hsub.length_le
          have h2l : 0 < (n.reverse.dropWhile notDot).length :=
            List.length_pos.mpr hne
          rw [← hpair]
          simp only [List.length_reverse, List.length_tail]
          omega
        · rw [if_neg hc] at hsp
          exact absurd hsp (by simp)
  rw [hs] at hlt
  omega

/-- Persisted clip record (`clips.rs::Clip`): output media paths produced
for one annotation boundary and its start/end position in the original
media. The source field named `end` is a Lean keyword and is modelled by
the field `stop`. -/
structure Clip where
  media : List String
  start : Int
  stop : Int
deriving DecidableEq

/-- Persisted clip ledger (`clips.rs::Clips`): the original linked media
paths and the ordered clip records of one extraction run. -/
structure Clips where
  originalMedia : List String
  clips : List Clip
deriving DecidableEq

/-- Embedding of `Clips::with_media`. -/
def Clips.withMedia (media : List String) : Clips :=
  ⟨media, []⟩

/-- Embedding of `Clips::add`: append one record. -/
def Clips.add (c : Clips) (clip : Clip) : Clips :=
  { c with clips := c.clips ++ [clip] }

/-- Embedding of `Clips::get_timestamps`: strip every extension-like
component from the queried file name, then return the timestamps of the
first record having a media path with that bare stem. -/
def Clips.getTimestamps (c : Clips) (path : String) : Option (Int × Int) :=
  match pathFileStem path.toList with
  | none => none
  | some fs0 =>
    match stripAll fs0 with
    | none => none
    | some fs =>
      (c.clips.find? fun cl => cl.media.any fun m => pathFileStem m.toList == some fs).map
        fun cl => (cl.start, cl.stop)

/-- JSON value tree, restricted to the constructors the ledger schema uses
(strings, 64-bit integers, arrays, objects). `Clips::write` serializes with
`serde_json::to_string` and `Clips::read` parses with
`serde_json::from_str`; the text layer of `serde_json` is external to this
repository, so serialization is modelled at the JSON value level. -/
inductive Json where
  | str (s : String)
  | num (n : Int)
  | arr (xs : List Json)
  | obj (fields : List (String × Json))

/-- Field lookup in a JSON object, by name, order-insensitively (first
occurrence wins), as `serde` deserialization resolves fields. -/
def Json.getField (j : Json) (key : String) : Option Json :=
  match j with
  | .obj fs => (fs.find? fun kv => kv.1 == key).map fun kv => kv.2
  | _ => none

/-- Expect a JSON array. -/
def Json.asArr : Json → Option (List Json)
  | .arr xs => some xs
  | _ => none

/-- Expect a JSON string. -/
def Json.asStr : Json → Option String
  | .str s => some s
  | _ => none

/-- Expect a JSON integer. -/
def Json.asNum : Json → Option Int
  | .num n => some n
  | _ => none

/-- Deserialize every element of a list, failing when any element fails,
as `serde` deserializes a JSON array into a `Vec`. -/
def mapOpt {α β : Type} (f : α → Option β) : List α → Option (List β)
  | [] => some []
  | a :: rest =>
    match f a with
    | none => none
    | some b =>
      match mapOpt f rest with
      | none => none
      | some bs => some (b :: bs)

/-- Serialization of one `Clip` as derived by `serde`: an object with the
fields named media, start and end, in declaration order, paths as strings
and timestamps as integers. -/
def Clip.toJson (c : Clip) : Json :=
  .obj [("media", .arr (c.media.map .str)), ("start", .num c.start), ("end", .num c.stop)]

/-- Deserialization of one `Clip` as derived by `serde`. -/
def Clip.fromJson (j : Json) : Option Clip :=
  match (j.getField "media").bind Json.asArr with
  | none => none
  | some marr =>
    match mapOpt Json.asStr marr with
    | none => none
    | some media =>
      match (j.getField "start").bind Json.asNum, (j.getField "end").bind Json.asNum with
      | some s, some e => some ⟨media, s, e⟩
      | _, _ => none

/-- Serialization of a `Clips` ledger as derived by `serde`. -/
def Clips.toJson (c : Clips) : Json :=
  .obj [("original_media", .arr (c.originalMedia.map .str)),
        ("clips", .arr (c.clips.map Clip.toJson))]

/-- Deserialization of a `Clips` ledger as derived by `serde`. -/
def Clips.fromJson (j : Json) : Option Clips :=
  match (j.getField "original_media").bind Json.asArr with
  | none => none
  | some oarr =>
    match mapOpt Json.asStr oarr with
    | none => none
    | some original =>
      match (j.getField "clips").bind Json.asArr with
      | none => none
      | some carr =>
        match mapOpt Clip.fromJson carr with
        | none => none
        | some clips => some ⟨original, clips⟩

/-- The batch-mode boundary list built in `clips.rs::run` (the `false` arm
of the `single` match): keep each annotation whose `ts_val` is fully
resolved and, when a minimum duration is configured, whose duration
`end - start` is not below it, producing
`(start, end, annotation id, annotation value)` tuples in tier order. -/
def boundariesBatch (annots : List Annot) (minDur : Option Int) :
    List (Int × Int × String × String) :=
  annots.filterMap fun a =>
    match a.tsStart, a.tsEnd with
    | some s, some e =>
      match minDur with
      | some m => if e - s < m then none else some (s, e, a.id, a.value)
      | none => some (s, e, a.id, a.value)
    | _, _ => none

/-- Spec-side keep test for the batch filter: time values resolved and
duration at least the threshold. -/
def keepsAnnot (m : Int) (a : Annot) : Bool :=
  match a.tsStart, a.tsEnd with
  | some s, some e => decide (m ≤ e - s)
  | _, _ => false

/-- Spec-side boundary tuple of an annotation whose time values are
resolved. -/
def boundaryOf (a : Annot) : Int × Int × String × String :=
  match a.tsStart, a.tsEnd with
  | some s, some e => (s, e, a.id, a.value)
  | _, _ => (0, 0, a.id, a.value)

/-- Rust `Path::join` for the joins this subsystem performs (the appended
component is never absolute and the base is nonempty). -/
def pathJoin (p c : String) : String :=
  p ++ "/" ++ c

/-- The `<filestem>_CLIPS` output directory component of `clips.rs::run`. -/
def clipsDirName (filestem : String) : String :=
  filestem ++ "_CLIPS"

/-- The output-directory resolution of `clips.rs::run`: a user-supplied
directory, or else the parent of the document, always extended with the
`<filestem>_CLIPS` component; `none` models the process exit when the
document has no parent. -/
def outdirOf (userOutdir : Option String) (eafParent : Option String)
    (filestem : String) : Option String :=
  match userOutdir with
  | some d => some (pathJoin d (clipsDirName filestem))
  | none => eafParent.map fun p => pathJoin p (clipsDirName filestem)

/-- Externally visible effect of the extraction loop: a successful media
cut, or a tier ledger serialized to the tier output directory. -/
inductive Event where
  | cutOk (src : String) (startMs endMs : Int) (dst : String)
  | ledgerWritten (tierId : String) (ledger : Clips)
deriving DecidableEq

/-- Test for a ledger-write event. -/
def isLedgerEvent : Event → Bool
  | .ledgerWritten _ _ => true
  | _ => false

/-- Parameters of one non-dry-run batch extraction run, with the external
collaborators (FFmpeg cut, filesystem existence test, interactive overwrite
confirmation) as oracles. -/
structure RunConfig where
  cut : String → Int → Int → String → Except String String
  existsFn : String → Bool
  confirmFn : String → Except String Bool
  mediaProcessPaths : List String
  outdir : String
  useTid : Bool
  useAid : Bool
  useVal : Bool
  useTime : Bool
  asciiPath : Bool
  maxLen : Nat
  minDur : Option Int
  baseClips : Clips

/-- The fatal error message built in `clips.rs::run` when
`FFmpeg::extract_timespan` fails: it names the destination and the source
path. -/
def cutErrMsg (outPath srcPath err : String) : String :=
  "Failed to extract\n  \x27" ++ outPath ++ "\x27\n  from\n  \x27" ++ srcPath ++
    "\x27:\n  " ++ err

/-- The overwrite-confirmation gate of `clips.rs::run`: when the output
path exists, a declined confirmation or a failed prompt read aborts the
run. -/
def overwriteGate (C : RunConfig) (outPath : String) : Except String Unit :=
  if C.existsFn outPath then
    match C.confirmFn outPath with
    | .ok true => .ok ()
    | .ok false => .error "User aborted process."
    | .error err => .error ("Failed to read input: " ++ err ++ ".")
  else .ok ()

/-- The inner media loop of `clips.rs::run` for one boundary: for each
resolved media path, derive the output path, record it into the clip
record, pass the overwrite gate, and invoke the media cut; any failure
aborts with the events already performed. -/
def processMediaList (C : RunConfig) (tierOutdir astem : String) (startMs endMs : Int) :
    List String → Clip → List Event × Except String Clip
  | [], clip => ([], .ok clip)
  | mediaIn :: rest, clip =>
    match pathExtension mediaIn.toList with
    | none => ([], .error ("Could not determine file type for \x27" ++ mediaIn ++ "\x27."))
    | some ext =>
      match pathFileStem mediaIn.toList with
      | none => ([], .error "Could not determine file name (process exit).")
      | some mediastem =>
        let outPath := pathJoin tierOutdir
          (⟨mediastem⟩ ++ "_" ++ astem ++ "." ++ (⟨ext⟩ : String))
        let clip2 : Clip := { clip with media := clip.media ++ [outPath] }
        match overwriteGate C outPath with
        | .error err => ([], .error err)
        | .ok _ =>
          match C.cut mediaIn startMs endMs outPath with
          | .error err => ([], .error (cutErrMsg outPath mediaIn err))
          | .ok _ =>
            let r := processMediaList C tierOutdir astem startMs endMs rest clip2
            (Event.cutOk mediaIn startMs endMs outPath :: r.1, r.2)

/-- The boundary loop of `clips.rs::run` for one tier: build the
`annotstem`, run the media loop, and append the completed record to the
tier-scoped ledger; any failure aborts before the ledger grows further. -/
def processBoundaries (C : RunConfig) (tierOutdir tierId : String) :
    List (Int × Int × String × String) → Nat → Clips → List Event × Except String Clips
  | [], _, acc => ([], .ok acc)
  | (s, e, aId, val) :: rest, idx, acc =>
    let astem := annotStem idx tierId aId val C.useTid C.useAid C.useVal C.useTime
      C.asciiPath C.maxLen s e
    match processMediaList C tierOutdir astem s e C.mediaProcessPaths ⟨[], s, e⟩ with
    | (evs, .error err) => (evs, .error err)
    | (evs, .ok clip) =>
      let r := processBoundaries C tierOutdir tierId rest (idx + 1) (acc.add clip)
      (evs ++ r.1, r.2)

/-- Processing of one tier in batch mode: boundary list from the
minimum-duration filter, then the boundary loop over a clone of the base
ledger. -/
def processTier (C : RunConfig) (tier : Tier) : List Event × Except String Clips :=
  let tierOutdir := pathJoin C.outdir tier.tierId
  processBoundaries C tierOutdir tier.tierId (boundariesBatch tier.annotations C.minDur)
    0 C.baseClips

/-- The tier loop of `clips.rs::run` in non-dry-run batch mode: process
each tier in turn; on success serialize the tier ledger (the
`ledgerWritten` event) and continue, on failure abort the whole run with
the error, leaving the in-progress tier without a ledger write. -/
def runTiers (C : RunConfig) : List Tier → List Event × Except String Unit
  | [] => ([], .ok ())
  | tier :: rest =>
    match processTier C tier with
    | (evs, .error err) => (evs, .error err)
    | (evs, .ok tierClips) =>
      let r := runTiers C rest
      (evs ++ Event.ledgerWritten tier.tierId tierClips :: r.1, r.2)

/-- Concrete annotation with resolved time-slot values. -/
def demoWithTs : Annot := ⟨"a1", "one", some 0, some 100⟩

/-- Concrete annotation without resolved time-slot values. -/
def demoNoTs : Annot := ⟨"a2", "two", none, none⟩

/-- Concrete tier whose second annotation lacks time-slot values. -/
def demoTier : Tier := ⟨"T", [demoWithTs, demoNoTs]⟩

/-- Concrete document with one tier and no tokenized tiers. -/
def demoEaf : Eaf := ⟨[demoTier], fun _ => false⟩

/-- Concrete ledger with one record mapping the clip `talk.wav` to the
span 1000 to 5000 milliseconds of the original media. -/
def demoLedger : Clips := ⟨["orig.mp4"], [⟨["talk.wav"], 1000, 5000⟩]⟩

/-- Cut oracle that fails on every invocation. -/
def demoCut : String → Int → Int → String → Except String String :=
  fun _ _ _ _ => Except.error "boom"

/-- Concrete run configuration: one resolved media path, failing cuts, no
pre-existing output files, every filename flag off. -/
def demoRunConfig : RunConfig :=
  ⟨demoCut, fun _ => false, fun _ => Except.ok true, ["m/talk.wav"], "out",
   false, false, false, false, false, 20, none, ⟨["m/talk.wav"], []⟩⟩

/-- Concrete tier with one fully timed annotation. -/
def demoCurTier : Tier := ⟨"T", [⟨"a1", "one", some 0, some 100⟩]⟩

/-- C1 (counterexample): the component string composed for 1-based boundary
index 3 in tier utterance, annotation id a7, value Hello-comma-world-bang,
max length 20, times 1200 to 3400, with all four flags on, is NOT the
claimed string with a space between Hello and world: the extractor always
passes the underscore whitespace substitute to the sanitizer, so the space
is replaced. -/
theorem annotStem_counterexample :
    annotStem 2 "utterance" "a7" "Hello, world!" true true true true false 20 1200 3400
      ≠ "annotation_0003_utterance_a7_Hello world_1200-3400" := by decide

/-- C1 (amended): with the same inputs the composed component string is
annotation_0003_utterance_a7_Hello_world_1200-3400 — the fixed component
order and the strip-set removal of the comma and the exclamation mark hold,
but the space of the sanitized value is further replaced by an underscore
because the whitespace substitute is always enabled. -/
theorem annotStem_components :
    annotStem 2 "utterance" "a7" "Hello, world!" true true true true false 20 1200 3400
      = "annotation_0003_utterance_a7_Hello_world_1200-3400" := by decide

/-- Helper: every event emitted by the media loop is a successful-cut
event, never a ledger write. -/
theorem processMediaList_noLedger (C : RunConfig) (tierOutdir astem : String)
    (s e : Int) (ms : List String) :
    ∀ (clip : Clip) (ev : Event),
      ev ∈ (processMediaList C tierOutdir astem s e ms clip).1 →
      isLedgerEvent ev = false := by
  induction ms with
  | nil => intro clip ev hev; simp [processMediaList] at hev
  | cons mediaIn rest ih =>
    intro clip ev hev
    simp only [processMediaList] at hev
    split at hev
    · simp at hev
    · split at hev
      · simp at hev
      · split at hev
        · simp at hev
        · split at hev
          · simp at hev
          · simp only [List.mem_cons] at hev
            rcases hev with rfl | hev
            · rfl
            · exact ih _ ev hev

/-- Helper: the boundary loop of one tier emits no ledger-write event. -/
theorem processBoundaries_noLedger (C : RunConfig) (tierOutdir tierId : String)
    (bs : List (Int × Int × String × String)) :
    ∀ (idx : Nat) (acc : Clips) (ev : Event),
      ev ∈ (processBoundaries C tierOutdir tierId bs idx acc).1 →
      isLedgerEvent ev = false := by
  induction bs with
  | nil => intro idx acc ev hev; simp [processBoundaries] at hev
  | cons b rest ih =>
    intro idx acc ev hev
    obtain ⟨s, e, aId, val⟩ := b
    simp only [processBoundaries] at hev
    split at hev
    · rename_i evs err heq
      have hin : ev ∈ (processMediaList C tierOutdir
          (annotStem idx tierId aId val C.useTid C.useAid C.useVal C.useTime C.asciiPath
            C.maxLen s e) s e C.mediaProcessPaths ⟨[], s, e⟩).1 := by
        rw [heq]; exact hev
      exact processMediaList_noLedger C tierOutdir _ s e C.mediaProcessPaths _ ev hin
    · rename_i evs clip heq
      simp only [List.mem_append] at hev
      rcases hev with hev | hev
      · have hin : ev ∈ (processMediaList C tierOutdir
            (annotStem idx tierId aId val C.useTid C.useAid C.useVal C.useTime C.asciiPath
              C.maxLen s e) s e C.mediaProcessPaths ⟨[], s, e⟩).1 := by
          rw [heq]; exact hev
        exact processMediaList_noLedger C tierOutdir _ s e C.mediaProcessPaths _ ev hin
      · exact ih _ _ ev hev

/-- Helper: processing one tier emits no ledger-write event; the ledger
write of a tier is appended only by the tier loop after the whole tier
succeeded. -/
theorem processTier_noLedger (C : RunConfig) (tier : Tier) :
    ∀ ev ∈ (processTier C tier).1, isLedgerEvent ev = false := by
  intro ev hev
  exact processBoundaries_noLedger C _ tier.tierId _ 0 C.baseClips ev hev

/-- Helper: unfolding of the tier loop on a failing head tier. -/
theorem runTiers_cons_err (C : RunConfig) (t : Tier) (rest : List Tier)
    (evs : List Event) (err : String) (h : processTier C t = (evs, Except.error err)) :
    runTiers C (t :: rest) = (evs, Except.error err) := by
  simp only [runTiers, h]

/-- Helper: unfolding of the tier loop on a succeeding head tier. -/
theorem runTiers_cons_ok (C : RunConfig) (t : Tier) (rest : List Tier)
    (evs0 : List Event) (cl0 : Clips) (ht : processTier C t = (evs0, Except.ok cl0)) :
    runTiers C (t :: rest)
      = (evs0 ++ Event.ledgerWritten t.tierId cl0 :: (runTiers C rest).1,
         (runTiers C rest).2) := by
  simp only [runTiers, ht]

/-- C2: when every tier before the current one succeeds and the current
tier fails with a media-cut error (whose message names destination and
source), the whole run returns that fatal error; the events performed
contain exactly one ledger write per fully processed prior tier — none for
the in-progress tier or any later tier. -/
theorem runTiers_allOrNothing :
    ∀ (C : RunConfig) (pre : List Tier) (cur : Tier) (suf : List Tier)
      (evsCur : List Event) (outP srcP err : String),
      (∀ t ∈ pre, ∃ evs cl, processTier C t = (evs, Except.ok cl)) →
      processTier C cur = (evsCur, Except.error (cutErrMsg outP srcP err)) →
      ∃ evs, runTiers C (pre ++ cur :: suf) = (evs, Except.error (cutErrMsg outP srcP err)) ∧
        (evs.filter isLedgerEvent).length = pre.length ∧
        ∀ t ∈ pre, ∃ l, Event.ledgerWritten t.tierId l ∈ evs := by
  intro C pre
  induction pre with
  | nil =>
    intro cur suf evsCur outP srcP err hpre hcur
    refine ⟨evsCur, ?_, ?_, by simp⟩
    · rw [List.nil_append]
      exact runTiers_cons_err C cur suf evsCur _ hcur
    · have hnl : ∀ ev ∈ evsCur, isLedgerEvent ev = false := by
        intro ev hev
        exact processTier_noLedger C cur ev (by rw [hcur]; exact hev)
      have : evsCur.filter isLedgerEvent = [] := by
        rw [List.filter_eq_nil_iff]
        intro a ha
        simp [hnl a ha]
      simp [this]
  | cons t pre ih =>
    intro cur suf evsCur outP srcP err hpre hcur
    obtain ⟨evs0, cl0, ht⟩ := hpre t (List.mem_cons_self t pre)
    obtain ⟨evs, hrun, hcount, hmem⟩ :=
      ih cur suf evsCur outP srcP err (fun t2 h2 => hpre t2 (List.mem_cons_of_mem _ h2)) hcur
    refine ⟨evs0 ++ Event.ledgerWritten t.tierId cl0 :: evs, ?_, ?_, ?_⟩
    · rw [List.cons_append, runTiers_cons_ok C t _ evs0 cl0 ht, hrun]
    · rw [List.filter_append, List.length_append]
      have hnl : ∀ ev ∈ evs0, isLedgerEvent ev = false := by
        intro ev hev
        exact processTier_noLedger C t ev (by rw [ht]; exact hev)
      have h0 : evs0.filter isLedgerEvent = [] := by
        rw [List.filter_eq_nil_iff]
        intro a ha
        simp [hnl a ha]
      rw [h0]
      have h1 : (Event.ledgerWritten t.tierId cl0 :: evs).filter isLedgerEvent
          = Event.ledgerWritten t.tierId cl0 :: evs.filter isLedgerEvent := by
        simp [List.filter_cons, isLedgerEvent]
      rw [h1]
      simp [hcount]
    · intro t2 ht2
      rcases List.mem_cons.mp ht2 with rfl | h2
      · exact ⟨cl0, by simp⟩
      · obtain ⟨l, hl⟩ := hmem t2 h2
        exact ⟨l, by simp [hl]⟩

/-- C2 (witness): a one-tier run whose only cut invocation fails returns
the fatal cut error naming destination and source, and writes no ledger. -/
theorem runTiers_allOrNothing_witness :
    (∀ t ∈ ([] : List Tier), ∃ evs cl, processTier demoRunConfig t = (evs, Except.ok cl)) ∧
    processTier demoRunConfig demoCurTier
      = ([], Except.error (cutErrMsg "out/T/talk_annotation_0001.wav" "m/talk.wav" "boom")) ∧
    ∃ evs, runTiers demoRunConfig ([] ++ demoCurTier :: []) =
        (evs, Except.error (cutErrMsg "out/T/talk_annotation_0001.wav" "m/talk.wav" "boom")) ∧
      (evs.filter isLedgerEvent).length = ([] : List Tier).length ∧
      ∀ t ∈ ([] : List Tier), ∃ l, Event.ledgerWritten t.tierId l ∈ evs :=
  ⟨by simp, rfl,
    runTiers_allOrNothing demoRunConfig [] demoCurTier [] []
      "out/T/talk_annotation_0001.wav" "m/talk.wav" "boom" (by simp) rfl⟩

/-- C3 (code bug): the annotation selector compares the parsed 1-based
input against the 0-based positions stored in the no-timestamp list, so
entering the 1-based index of an annotation without resolved time-slot
values passes the check and the selector returns that annotation instead
of rejecting it: on a tier whose second annotation has no time values, the
input line 2 selects exactly that annotation. -/
theorem selectAnnot_offByOne :
    selectAnnot demoTier [InEvent.line "2"] = SelOutcome.selected demoNoTs ∧
    demoNoTs.tsStart = none ∧ demoNoTs.tsEnd = none := by
  refine ⟨by decide, rfl, rfl⟩

/-- C4 (counterexample): with no substitutes, no pattern and no length the
sanitizer returns its input untouched — the whitespace around the input is
NOT trimmed, contradicting the claim that step 3 trims regardless of which
optional substitutes are supplied. -/
theorem processString_trim_counterexample :
    processString " a " none none none none = " a " ∧
    rustTrim " a " = "a" ∧ (" a " : String) ≠ "a" :=
  ⟨rfl, by decide, by decide⟩

/-- C4 (amended): the sanitizer applies its steps in the fixed order
truncate, remove pattern matches, trim, substitute whenever at least one
of the ASCII or whitespace substitutes is supplied; when both are absent
the result of truncation and removal is returned with no trim. -/
theorem processString_stage_order :
    (∀ (v : String) (a w : Option Char) (r : Option (String → String)) (l : Option Nat),
      a ≠ none ∨ w ≠ none →
      processString v a w r l = substStep a w (rustTrim (removeStep r (truncStep l v)))) ∧
    (∀ (v : String) (r : Option (String → String)) (l : Option Nat),
      processString v none none r l = removeStep r (truncStep l v)) := by
  constructor
  · intro v a w r l h
    cases a <;> cases w
    · simp at h
    · rfl
    · rfl
    · rfl
  · intro v r l
    rfl

/-- C4 (witness): the pipeline factorization at a concrete input with only
the whitespace substitute supplied. -/
theorem processString_stage_order_witness :
    ((some '_' : Option Char) ≠ none ∨ (none : Option Char) ≠ none) ∧
    processString " x y " (some '_') none none none
      = substStep (some '_') none (rustTrim (removeStep none (truncStep none " x y "))) :=
  ⟨Or.inl (by decide), processString_stage_order.1 " x y " (some '_') none none none
    (Or.inl (by decide))⟩

/-- Helper: the stripping loop terminates immediately on a stem without an
extension. -/
theorem stripAll_of_ext_none (stem : List Char) (h : pathExtension stem = none) :
    stripAll stem = some stem := by
  rw [stripAll.eq_def]
  split
  · rfl
  · rename_i hext
    rw [h] at hext
    exact absurd hext (by simp)

/-- Helper: one step of the stripping loop replaces a stem that still has
an extension by its file stem. -/
theorem stripAll_of_ext_some (stem s a : List Char)
    (he : pathExtension stem = some a) (hs : pathFileStem stem = some s) :
    stripAll stem = stripAll s := by
  rw [stripAll.eq_def]
  split
  · rename_i hext
    rw [he] at hext
    exact absurd hext (by simp)
  · split
    · rename_i hstem
      rw [hs] at hstem
      exact absurd hstem (by simp)
    · rename_i hstem
      rw [hs] at hstem
      obtain rfl : s = _ := Option.some.inj hstem
      rfl

/-- Helper: concrete evaluation of the ledger lookup on a multi-dot query
name whose extensions strip down to the bare stem talk. -/
theorem getTimestamps_demo_eval :
    demoLedger.getTimestamps "talk.words.wav.json" = some (1000, 5000) := by
  have h0 : pathFileStem ("talk.words.wav.json".toList) = some ("talk.words.wav".toList) := by
    decide
  have hchain : stripAll ("talk.words.wav".toList) = some ("talk".toList) := by
    rw [stripAll_of_ext_some ("talk.words.wav".toList) ("talk.words".toList) ("wav".toList)
      (by decide) (by decide)]
    rw [stripAll_of_ext_some ("talk.words".toList) ("talk".toList) ("words".toList)
      (by decide) (by decide)]
    exact stripAll_of_ext_none ("talk".toList) (by decide)
  unfold Clips.getTimestamps
  simp only [h0, hchain]
  decide

/-- Helper: whenever the ledger lookup answers, the answer is the start and
end of a record one of whose media stems equals the fully stripped stem of
the query. -/
theorem getTimestamps_sound :
    ∀ (c : Clips) (p : String) (s e : Int),
      c.getTimestamps p = some (s, e) →
      ∃ cl, cl ∈ c.clips ∧ cl.start = s ∧ cl.stop = e ∧
        ∃ fs0 fs, pathFileStem p.toList = some fs0 ∧ stripAll fs0 = some fs ∧
          ∃ m, m ∈ cl.media ∧ pathFileStem m.toList = some fs := by
  intro c p s e h
  unfold Clips.getTimestamps at h
  split at h
  · exact absurd h (by simp)
  · split at h
    · exact absurd h (by simp)
    · rename_i fs0 h0 x2 fs h1
      clear x2
      simp only [Option.map_eq_some'] at h
      obtain ⟨cl, hfind, hpair⟩ := h
      have hmem := List.mem_of_find?_eq_some hfind
      have hpred := List.find?_some hfind
      simp only [List.any_eq_true] at hpred
      obtain ⟨m, hm, hbeq⟩ := hpred
      have hms : pathFileStem m.toList = some fs := by
        simpa using hbeq
      obtain ⟨hs, he⟩ : cl.start = s ∧ cl.stop = e := by
        injection hpair with hh1 hh2
        exact ⟨hh1, hh2⟩
      exact ⟨cl, hmem, hs, he, fs0, fs, h0, h1, m, hm, hms⟩

/-- C5: the ledger lookup strips every extension-like component of the
queried name — in particular, on a ledger whose record holds media
talk.wav with span 1000 to 5000, looking up talk.words.wav.json returns
exactly that span — and every answer it gives comes from a record one of
whose media stems equals the fully stripped query stem. -/
theorem getTimestamps_lookup :
    demoLedger.getTimestamps "talk.words.wav.json" = some (1000, 5000) ∧
    ∀ (c : Clips) (p : String) (s e : Int),
      c.getTimestamps p = some (s, e) →
      ∃ cl, cl ∈ c.clips ∧ cl.start = s ∧ cl.stop = e ∧
        ∃ fs0 fs, pathFileStem p.toList = some fs0 ∧ stripAll fs0 = some fs ∧
          ∃ m, m ∈ cl.media ∧ pathFileStem m.toList = some fs :=
  ⟨getTimestamps_demo_eval, getTimestamps_sound⟩

/-- C5 (witness): the soundness direction applied at the concrete ledger
and query. -/
theorem getTimestamps_lookup_witness :
    ∃ cl, cl ∈ demoLedger.clips ∧ cl.start = 1000 ∧ cl.stop = 5000 ∧
      ∃ fs0 fs, pathFileStem ("talk.words.wav.json".toList) = some fs0 ∧
        stripAll fs0 = some fs ∧
        ∃ m, m ∈ cl.media ∧ pathFileStem m.toList = some fs :=
  getTimestamps_lookup.2 demoLedger "talk.words.wav.json" 1000 5000 getTimestamps_demo_eval

/-- C6: in batch mode the boundary list is exactly the tier-order filter of
the annotations with resolved time values whose duration reaches the
configured threshold; with durations 100, 250 and 500 and threshold 200,
exactly the annotations of duration 250 and 500 survive. -/
theorem boundariesBatch_minDuration :
    (∀ (annots : List Annot) (m : Int),
      boundariesBatch annots (some m) = (annots.filter (keepsAnnot m)).map boundaryOf) ∧
    boundariesBatch
      [⟨"a1", "v1", some 0, some 100⟩, ⟨"a2", "v2", some 0, some 250⟩,
       ⟨"a3", "v3", some 0, some 500⟩] (some 200)
      = [(0, 250, "a2", "v2"), (0, 500, "a3", "v3")] := by
  constructor
  · intro annots m
    induction annots with
    | nil => rfl
    | cons a rest ih =>
      simp only [boundariesBatch, List.filterMap_cons, List.filter_cons] at ih ⊢
      cases hs : a.tsStart with
      | none => simpa [keepsAnnot, hs] using ih
      | some s =>
        cases he : a.tsEnd with
        | none => simpa [keepsAnnot, hs, he] using ih
        | some e =>
          by_cases hd : e - s < m
          · have hk : keepsAnnot m a = false := by
              simp [keepsAnnot, hs, he]; omega
            simpa [hs, he, hd, hk] using ih
          · have hk : keepsAnnot m a = true := by
              simp [keepsAnnot, hs, he]; omega
            simpa [hs, he, hd, hk, boundaryOf] using ih
  · decide

/-- Helper: deserializing the serialization of a string list succeeds with
the original list. -/
theorem mapOpt_asStr (l : List String) : mapOpt Json.asStr (l.map Json.str) = some l := by
  induction l with
  | nil => rfl
  | cons a rest ih => simp [mapOpt, Json.asStr, ih]

/-- Helper: one clip record round-trips through its JSON form. -/
theorem clip_fromJson_toJson (c : Clip) : Clip.fromJson c.toJson = some c := by
  show (match mapOpt Json.asStr (c.media.map Json.str) with
        | none => none
        | some media => some (⟨media, c.start, c.stop⟩ : Clip)) = some c
  rw [mapOpt_asStr]

/-- Helper: a list of clip records round-trips elementwise. -/
theorem mapOpt_clipJson (l : List Clip) : mapOpt Clip.fromJson (l.map Clip.toJson) = some l := by
  induction l with
  | nil => rfl
  | cons c rest ih => simp [mapOpt, clip_fromJson_toJson, ih]

/-- C7: deserializing the serialized JSON form of any ledger yields the
ledger back, preserving the original-media list, the clip order and each
record in full. -/
theorem clips_json_roundtrip :
    ∀ c : Clips, Clips.fromJson (Clips.toJson c) = some c := by
  intro c
  show (match mapOpt Json.asStr (c.originalMedia.map Json.str) with
        | none => none
        | some original =>
          match mapOpt Clip.fromJson (c.clips.map Clip.toJson) with
          | none => none
          | some clips => some (⟨original, clips⟩ : Clips)) = some c
  rw [mapOpt_asStr, mapOpt_clipJson]

/-- C8 (counterexample): on end of file before any valid selection — the
empty input sequence — the tier selector diverges re-prompting forever; it
does not propagate an I/O error, because the Rust read at end of file
returns success with an empty line. -/
theorem selectTier_eof_counterexample :
    selectTier demoEaf true [] = SelOutcome.diverges ∧
    (SelOutcome.diverges : SelOutcome Tier) ≠ SelOutcome.ioError :=
  ⟨rfl, fun h => nomatch h⟩

/-- Helper: an accepted tier-selector step yields a tier of the document
that passes the tokenization rejection. -/
theorem selectTierStep_sound (eaf : Eaf) (noTok : Bool) (s : String) (t : Tier)
    (hstep : selectTierStep eaf noTok s = some t) :
    t ∈ eaf.tiers ∧ (eaf.tokenizedTransitive t.tierId && noTok) = false := by
  unfold selectTierStep at hstep
  cases hp : parseUsize (rustTrimEnd s) with
  | none => simp [hp] at hstep
  | some i =>
    simp only [hp] at hstep
    cases hg : eaf.tiers[usizeSub1 i]? with
    | none => simp [hg] at hstep
    | some t2 =>
      simp only [hg] at hstep
      by_cases hcond : (eaf.tokenizedTransitive t2.tierId && noTok) = true
      · simp [hcond] at hstep
      · simp only [if_neg hcond] at hstep
        obtain rfl : t2 = t := Option.some.inj hstep
        exact ⟨List.getElem?_mem hg, by simpa using hcond⟩

/-- C8 (amended): on every finite input sequence the tier selector either
propagates an I/O error, or returns a valid accepted selection — a tier of
the document, not rejected by the tokenization rule — or, when input is
exhausted before either, loops forever re-prompting; in particular end of
file alone produces the infinite re-prompt loop, not an I/O error. -/
theorem selectTier_outcomes :
    ∀ (eaf : Eaf) (noTok : Bool) (inputs : List InEvent),
      selectTier eaf noTok [] = SelOutcome.diverges ∧
      (selectTier eaf noTok inputs = SelOutcome.ioError ∨
       selectTier eaf noTok inputs = SelOutcome.diverges ∨
       ∃ t, selectTier eaf noTok inputs = SelOutcome.selected t ∧ t ∈ eaf.tiers ∧
         (eaf.tokenizedTransitive t.tierId && noTok) = false) := by
  intro eaf noTok inputs
  refine ⟨rfl, ?_⟩
  induction inputs with
  | nil => exact Or.inr (Or.inl rfl)
  | cons ev rest ih =>
    cases ev with
    | ioErr => exact Or.inl rfl
    | line s =>
      cases hstep : selectTierStep eaf noTok s with
      | none =>
        have hrw : selectTier eaf noTok (InEvent.line s :: rest) = selectTier eaf noTok rest := by
          simp [selectTier, hstep]
        rw [hrw]
        exact ih
      | some t =>
        obtain ⟨hmem, hcond⟩ := selectTierStep_sound eaf noTok s t hstep
        exact Or.inr (Or.inr ⟨t, by simp [selectTier, hstep], hmem, hcond⟩)

/-- Helper: a parsed usize value is below 2 to the power 64. -/
theorem parseUsize_lt (s : String) (n : Nat) (h : parseUsize s = some n) : n < usizeMod := by
  simp only [parseUsize] at h
  split at h
  · exact absurd h (by simp)
  · split at h
    · split at h
      · injection h with h2
        omega
      · exact absurd h (by simp)
    · exact absurd h (by simp)

/-- C9: every numeric input the tier selector parses that is 0 or exceeds
the tier count is rejected (the step yields no selection, so the loop
re-prompts); the 1-based-to-0-based conversion is total wrapping usize
arithmetic — input 0 wraps to 2 to the 64 minus 1, which indexes past any
real tier list — and the out-of-range index read returns none rather than
faulting. -/
theorem selectTierStep_outOfRange :
    ∀ (eaf : Eaf) (noTok : Bool) (s : String) (i : Nat),
      parseUsize (rustTrimEnd s) = some i →
      (i = 0 ∨ eaf.tiers.length < i) →
      eaf.tiers.length < usizeMod →
      selectTierStep eaf noTok s = none := by
  intro eaf noTok s i hp hout hlen
  have hiu : i < usizeMod := parseUsize_lt _ _ hp
  have hM : 0 < usizeMod := by unfold usizeMod; omega
  have hidx : eaf.tiers.length ≤ usizeSub1 i := by
    unfold usizeSub1
    rcases hout with rfl | hgt
    · rw [Nat.zero_add, Nat.mod_eq_of_lt (by omega)]
      omega
    · have hsplit : i + (usizeMod - 1) = (i - 1) + usizeMod := by omega
      rw [hsplit, Nat.add_mod_right, Nat.mod_eq_of_lt (by omega)]
      omega
  unfold selectTierStep
  rw [hp]
  simp only [List.getElem?_eq_none hidx]

/-- C9 (witness): the out-of-range input 0 on a concrete one-tier document
is rejected without any fault. -/
theorem selectTierStep_outOfRange_witness :
    parseUsize (rustTrimEnd "0") = some 0 ∧
    ((0 : Nat) = 0 ∨ demoEaf.tiers.length < 0) ∧
    demoEaf.tiers.length < usizeMod ∧
    selectTierStep demoEaf true "0" = none :=
  ⟨by decide, Or.inl rfl, by decide,
    selectTierStep_outOfRange demoEaf true "0" 0 (by decide) (Or.inl rfl) (by decide)⟩

/-- C10: a user-supplied output directory is always extended with the
document-stem plus the literal suffix underscore-CLIPS before any clip is
written, and the extended directory is never the user-supplied directory
itself. -/
theorem outdirOf_userDir :
    ∀ (d : String) (eafParent : Option String) (filestem : String),
      outdirOf (some d) eafParent filestem = some (pathJoin d (filestem ++ "_CLIPS")) ∧
      pathJoin d (filestem ++ "_CLIPS") ≠ d := by
  intro d p fs
  refine ⟨rfl, fun h => ?_⟩
  have hlen := congrArg String.length h
  simp only [pathJoin, String.length_append] at hlen
  have h1 : ("/" : String).length = 1 := rfl
  have h2 : ("_CLIPS" : String).length = 6 := rfl
  omega

end Eafutil
